import Mathlib

/-!
Verification of the frame-compositing pipeline of amogus_twerk_generator
(src/process_frames.py and src/prerender_masks.py).

Images are 8-bit RGBA rasters; numpy uint8 channels are modelled as
Fin 256.  All pipeline stages of process_frames.py act pixelwise except
dilate_mask (a 3x3 neighborhood scan) and extract_shading_map (which
normalizes by the min/max luminance over the masked region), so images
are modelled as a width, a height and a total pixel function; stages
that scan the whole raster enumerate the index lists explicitly.
Floating-point shading arithmetic is modelled over the rationals.
-/

set_option maxRecDepth 8000

namespace Amogus

/-- One 8-bit RGBA pixel, as stored in a numpy uint8 array of shape (h, w, 4). -/
structure Pixel where
  r : Fin 256
  g : Fin 256
  b : Fin 256
  a : Fin 256
deriving DecidableEq, Repr

/-- An RGBA raster: dimensions plus a total pixel lookup (row y, column x). -/
structure Img where
  w : Nat
  h : Nat
  pix : Nat → Nat → Pixel

/-- A single-channel uint8 raster, as used for the fill and outline masks. -/
structure Mask where
  w : Nat
  h : Nat
  val : Nat → Nat → Fin 256

/-- Value of a uint8 channel reinterpreted through astype(np.int16): the
wraparound embedding of the unsigned value into [-32768, 32768).  For
inputs below 256 this is the identity embedding into Int. -/
def toInt16 (n : Nat) : Int :=
  (((n + 32768) % 65536 : Nat) : Int) - 32768

/-- Two's-complement int16 addition with wraparound, as numpy performs it
on int16 arrays. -/
def i16add (x y : Int) : Int :=
  (x + y + 32768) % 65536 - 32768

/-- Standard green-screen test of remove_green_screen (aggressive=False),
src/process_frames.py lines 111-116, on channels widened by
astype(np.int16): g > threshold, g > r + 30, g > b + 30, r < 100. -/
def greenMaskStd (threshold : Nat) (p : Pixel) : Bool :=
  decide ((threshold : Int) < toInt16 p.g.val) &&
    decide (i16add (toInt16 p.r.val) 30 < toInt16 p.g.val) &&
    decide (i16add (toInt16 p.b.val) 30 < toInt16 p.g.val) &&
    decide (toInt16 p.r.val < 100)

/-- Aggressive green-screen test of remove_green_screen (aggressive=True),
src/process_frames.py lines 103-107: g > 100, g > r, g > b. -/
def greenMaskAggr (p : Pixel) : Bool :=
  decide ((100 : Int) < toInt16 p.g.val) &&
    decide (toInt16 p.r.val < toInt16 p.g.val) &&
    decide (toInt16 p.b.val < toInt16 p.g.val)

/-- remove_green_screen, src/process_frames.py lines 88-121.  The
convert("RGBA") step is the identity here because Pixel always carries an
alpha channel.  Matching pixels get alpha 0; nothing else is written. -/
def remove_green_screen (img : Img) (threshold : Nat) (aggressive : Bool) : Img :=
  { w := img.w, h := img.h,
    pix := fun y x =>
      let p := img.pix y x
      if (if aggressive then greenMaskAggr p else greenMaskStd threshold p)
      then { p with a := 0 } else p }

/-- Near-black test of extract_black_lines, src/process_frames.py line 48:
r < 140, g < 140, b < 140. -/
def blackCond (p : Pixel) : Bool :=
  decide (p.r.val < 140) && decide (p.g.val < 140) && decide (p.b.val < 140)

/-- extract_black_lines, src/process_frames.py lines 37-53: a uint8 mask
holding 255 at near-black pixels and 0 elsewhere. -/
def extract_black_lines (img : Img) : Mask :=
  { w := img.w, h := img.h,
    val := fun y x => if blackCond (img.pix y x) then 255 else 0 }

/-- Fill-region (yellow) test of create_yellow_mask, src/process_frames.py
lines 71-77: r > 180, g > 120, b < 150, r > b, g > b. -/
def yellowCond (p : Pixel) : Bool :=
  decide (180 < p.r.val) && decide (120 < p.g.val) && decide (p.b.val < 150) &&
    decide (p.b.val < p.r.val) && decide (p.b.val < p.g.val)

/-- The undilated yellow mask built at src/process_frames.py lines 79-80:
255 where yellowCond holds, 0 elsewhere. -/
def yellowMaskRaw (img : Img) : Mask :=
  { w := img.w, h := img.h,
    val := fun y x => if yellowCond (img.pix y x) then 255 else 0 }

/-- Interior test of the dilation loops, src/process_frames.py lines 25-26:
python iterates y over range(1, h - 1) and x over range(1, w - 1), leaving
the outermost one-pixel border untouched. -/
def interiorPix (m : Mask) (y x : Nat) : Bool :=
  decide (1 ≤ y) && decide (y + 1 < m.h) && decide (1 ≤ x) && decide (x + 1 < m.w)

/-- Neighborhood test of dilate_mask, src/process_frames.py lines 28-29:
some entry of the 3x3 window centred at (y, x) exceeds the noise
threshold 4. -/
def hasLitNeighbor (m : Mask) (y x : Nat) : Bool :=
  (List.range 3).any fun dy =>
    (List.range 3).any fun dx =>
      decide (4 < (m.val (y - 1 + dy) (x - 1 + dx)).val)

/-- One iteration of dilate_mask's outer loop, src/process_frames.py lines
21-32: every interior pixel whose 3x3 neighborhood in the previous mask
holds a value above 4 becomes 255; every other pixel keeps its previous
value.  The neighborhood is read from the previous iteration's full output
(the loop writes into a copy). -/
def dilateStep (m : Mask) : Mask :=
  { w := m.w, h := m.h,
    val := fun y x =>
      if interiorPix m y x && hasLitNeighbor m y x then 255 else m.val y x }

/-- dilate_mask, src/process_frames.py lines 12-34: the given number of
passes of dilateStep, each applied to the previous pass's output. -/
def dilate_mask (m : Mask) : Nat → Mask
  | 0 => m
  | k + 1 => dilateStep (dilate_mask m k)

/-- A pixel is a member of a uint8 mask when its value exceeds 128, the
threshold every mask consumer in process_frames.py applies. -/
abbrev memberAt (m : Mask) (y x : Nat) : Prop := 128 < (m.val y x).val

/-- create_yellow_mask, src/process_frames.py lines 56-85: the undilated
yellow mask dilated for 4 iterations. -/
def create_yellow_mask (img : Img) : Mask :=
  dilate_mask (yellowMaskRaw img) 4

/-- Row-major list of all (y, x) indices of an h-by-w raster. -/
def allIdx (h w : Nat) : List (Nat × Nat) :=
  (List.range h).flatMap fun y => (List.range w).map fun x => (y, x)

/-- Indices of the masked region (mask value above 128), row-major; the
set numpy boolean indexing with mask_array > 128 selects. -/
def maskedIdx (m : Mask) : List (Nat × Nat) :=
  (allIdx m.h m.w).filter fun q => decide (128 < (m.val q.1 q.2).val)

/-- Luminance of a pixel, src/process_frames.py line 138:
0.299 r + 0.587 g + 0.114 b, over exact rationals. -/
def luminance (p : Pixel) : ℚ :=
  (299 / 1000 : ℚ) * (p.r.val : ℚ) + (587 / 1000 : ℚ) * (p.g.val : ℚ) +
    (114 / 1000 : ℚ) * (p.b.val : ℚ)

/-- np.max of a list of values (0 on the empty list, which the source
never reaches because it guards with np.any). -/
def listMax : List ℚ → ℚ
  | [] => 0
  | q :: qs => qs.foldl max q

/-- np.min of a list of values (0 on the empty list, never reached). -/
def listMin : List ℚ → ℚ
  | [] => 0
  | q :: qs => qs.foldl min q

/-- The luminances of the masked pixels, in row-major mask order: the
array luminance[mask_bool] of src/process_frames.py line 143. -/
def maskedLums (base : Img) (m : Mask) : List ℚ :=
  (maskedIdx m).map fun q => luminance (base.pix q.1 q.2)

/-- extract_shading_map, src/process_frames.py lines 124-160.  With an
empty mask the result is np.ones_like: 1 everywhere.  Otherwise a masked
pixel gets its luminance normalized by the masked minimum and maximum and
clipped to [0.4, 1.0] when the extremes differ, and 1 when they coincide;
every unmasked entry keeps the 0 of np.zeros_like. -/
def extract_shading_map (base : Img) (m : Mask) (y x : Nat) : ℚ :=
  if maskedIdx m = [] then 1
  else if 128 < (m.val y x).val then
    if listMin (maskedLums base m) < listMax (maskedLums base m) then
      min (max ((luminance (base.pix y x) - listMin (maskedLums base m)) /
        (listMax (maskedLums base m) - listMin (maskedLums base m))) (2 / 5)) 1
    else 1
  else 0

/-- astype(np.uint8) on a float value: truncate to an integer and wrap
into [0, 256).  Every value cast in the modelled claims is nonnegative,
where truncation toward zero coincides with the floor used here. -/
def toUint8 (q : ℚ) : Fin 256 :=
  ⟨(⌊q⌋).toNat % 256, Nat.mod_lt _ (by norm_num)⟩

/-- apply_texture_to_mask, src/process_frames.py lines 163-208.  The
LANCZOS resize of a texture whose size differs from the base is outside
the model: texture stands for the already-resized raster, and the
convert("RGBA") step is the identity.  original is the source frame the
caller passes as original_img for shading extraction (the source falls
back to base when original_img is None; that call shape is expressed by
passing base itself).  Masked pixels get texture RGB scaled by the shading
value and cast to uint8, with alpha taken from the base; unmasked pixels
are copied from the base. -/
def apply_texture_to_mask (base texture : Img) (m : Mask) (original : Img) : Img :=
  { w := base.w, h := base.h,
    pix := fun y x =>
      if 128 < (m.val y x).val then
        { r := toUint8 (((texture.pix y x).r.val : ℚ) * extract_shading_map original m y x),
          g := toUint8 (((texture.pix y x).g.val : ℚ) * extract_shading_map original m y x),
          b := toUint8 (((texture.pix y x).b.val : ℚ) * extract_shading_map original m y x),
          a := (base.pix y x).a }
      else base.pix y x }

/-- overlay_black_lines, src/process_frames.py lines 211-228: RGB forced
to 0 where the line mask exceeds 128, alpha kept everywhere. -/
def overlay_black_lines (base : Img) (lineMask : Mask) : Img :=
  { w := base.w, h := base.h,
    pix := fun y x =>
      if 128 < (lineMask.val y x).val then
        { r := 0, g := 0, b := 0, a := (base.pix y x).a }
      else base.pix y x }

/-- process_frame, src/process_frames.py lines 231-274, up to but not
including the final 128x128 LANCZOS resize (resampling is outside the
model; mask saving and prints are I/O only).  The texture argument is
present exactly when texture_path names an existing file. -/
def process_frame_pre_resize (frame : Img) (texture : Option Img) : Img :=
  let mask := create_yellow_mask frame
  let line_mask := extract_black_lines frame
  let frame_no_green := remove_green_screen frame 100 false
  let result :=
    match texture with
    | some tex =>
        remove_green_screen (apply_texture_to_mask frame_no_green tex mask frame) 100 true
    | none => frame_no_green
  overlay_black_lines result line_mask

/-- convert_shading_to_uint8, src/prerender_masks.py lines 24-41, per
array entry: ((v - 0.4) / 0.6 * 255).astype(np.uint8), then
np.clip(, 102, 255).  On a uint8 value the upper clip at 255 is the
identity, so only the lower clamp at 102 acts. -/
def convert_shading_to_uint8 (v : ℚ) : Fin 256 :=
  if (toUint8 ((v - 2 / 5) / (3 / 5) * 255)).val < 102 then (102 : Fin 256)
  else toUint8 ((v - 2 / 5) / (3 / 5) * 255)

/-- Test raster: a 1x2 frame holding a fill-colored pixel (200, 150, 40)
at x = 0 and a background pixel (22, 187, 0) at x = 1. -/
def twoPixFrame : Img :=
  { w := 2, h := 1,
    pix := fun _ x =>
      if x = 0 then { r := 200, g := 150, b := 40, a := 255 }
      else { r := 22, g := 187, b := 0, a := 255 } }

/-- Test mask marking only the pixel at x = 0 of a 1x2 raster. -/
def twoPixMask : Mask :=
  { w := 2, h := 1, val := fun _ x => if x = 0 then 255 else 0 }

/-- Test raster: a 1x2 frame holding a white pixel and a black pixel. -/
def shadePairFrame : Img :=
  { w := 2, h := 1,
    pix := fun _ x =>
      if x = 0 then { r := 255, g := 255, b := 255, a := 255 }
      else { r := 0, g := 0, b := 0, a := 255 } }

/-- Test mask marking both pixels of a 1x2 raster. -/
def fullMask2 : Mask :=
  { w := 2, h := 1, val := fun _ _ => 255 }

/-- Test mask: a 3x3 raster whose centre pixel is 255. -/
def centerMask3 : Mask :=
  { w := 3, h := 3, val := fun y x => if y = 1 ∧ x = 1 then 255 else 0 }

theorem toInt16_eq_of_lt (n : Nat) (h : n < 32768) : toInt16 n = (n : Int) := by
  unfold toInt16
  rw [Nat.mod_eq_of_lt (by omega)]
  push_cast
  omega

theorem i16add_eq_of_bounds (x y : Int) (h0 : 0 ≤ x + y) (h1 : x + y < 32768) :
    i16add x y = x + y := by
  unfold i16add
  rw [Int.emod_eq_of_lt (by omega) (by omega)]
  omega

/-- C10: the standard green-screen comparisons are exact integer
comparisons.  Because the channels are widened with astype(np.int16)
before any arithmetic, the test g > r + 30 (and g > b + 30) agrees with
exact integer arithmetic for every 8-bit pixel, including pixels with
r at or above 226 or b at or above 226, where an 8-bit sum r + 30 would
have wrapped modulo 256. -/
theorem greenMaskStd_exact (threshold : Nat) (p : Pixel) :
    greenMaskStd threshold p = true ↔
      (threshold < p.g.val ∧ p.r.val + 30 < p.g.val ∧
        p.b.val + 30 < p.g.val ∧ p.r.val < 100) := by
  have hr := p.r.isLt
  have hg := p.g.isLt
  have hb := p.b.isLt
  unfold greenMaskStd
  rw [toInt16_eq_of_lt _ (by omega), toInt16_eq_of_lt _ (by omega),
    toInt16_eq_of_lt _ (by omega),
    i16add_eq_of_bounds _ _ (by omega) (by omega),
    i16add_eq_of_bounds _ _ (by omega) (by omega)]
  simp only [Bool.and_eq_true, decide_eq_true_eq]
  omega

/-- C8: the aggressive background test is looser than the standard one.
Any pixel passing the standard test (with the default threshold 100)
also passes the aggressive test. -/
theorem greenMaskAggr_of_greenMaskStd (p : Pixel)
    (h : greenMaskStd 100 p = true) : greenMaskAggr p = true := by
  have hr := p.r.isLt
  have hg := p.g.isLt
  have hb := p.b.isLt
  rw [greenMaskStd_exact] at h
  unfold greenMaskAggr
  rw [toInt16_eq_of_lt _ (by omega), toInt16_eq_of_lt _ (by omega),
    toInt16_eq_of_lt _ (by omega)]
  simp only [Bool.and_eq_true, decide_eq_true_eq]
  omega

/-- Concrete instance of greenMaskAggr_of_greenMaskStd at the
prototypical background pixel (22, 187, 0). -/
theorem greenMaskAggr_of_greenMaskStd_witness :
    greenMaskAggr { r := 22, g := 187, b := 0, a := 255 } = true :=
  greenMaskAggr_of_greenMaskStd { r := 22, g := 187, b := 0, a := 255 } (by decide)

/-- C3: remove_green_screen in standard mode with the default threshold 100
zeroes the alpha of exactly the pixels with g > 100, g > r + 30, g > b + 30
and r < 100, leaves every RGB channel unchanged, leaves non-matching pixels
entirely unchanged, and in particular zeroes the alpha of every pixel with
RGB (22, 187, 0). -/
theorem remove_green_screen_standard_spec (img : Img) (y x : Nat) :
    (((remove_green_screen img 100 false).pix y x).r = (img.pix y x).r ∧
      ((remove_green_screen img 100 false).pix y x).g = (img.pix y x).g ∧
      ((remove_green_screen img 100 false).pix y x).b = (img.pix y x).b) ∧
    ((100 < (img.pix y x).g.val ∧ (img.pix y x).r.val + 30 < (img.pix y x).g.val ∧
        (img.pix y x).b.val + 30 < (img.pix y x).g.val ∧ (img.pix y x).r.val < 100) →
      ((remove_green_screen img 100 false).pix y x).a = 0) ∧
    (¬(100 < (img.pix y x).g.val ∧ (img.pix y x).r.val + 30 < (img.pix y x).g.val ∧
        (img.pix y x).b.val + 30 < (img.pix y x).g.val ∧ (img.pix y x).r.val < 100) →
      (remove_green_screen img 100 false).pix y x = img.pix y x) ∧
    (((img.pix y x).r.val = 22 ∧ (img.pix y x).g.val = 187 ∧ (img.pix y x).b.val = 0) →
      ((remove_green_screen img 100 false).pix y x).a = 0) := by
  have hpix : (remove_green_screen img 100 false).pix y x =
      if greenMaskStd 100 (img.pix y x) then { img.pix y x with a := 0 }
      else img.pix y x := by
    unfold remove_green_screen
    simp only [Bool.false_eq_true, if_false]
  rw [hpix]
  by_cases hb : greenMaskStd 100 (img.pix y x) = true
  · rw [if_pos hb]
    rw [greenMaskStd_exact] at hb
    exact ⟨⟨rfl, rfl, rfl⟩, fun _ => rfl, fun hc => absurd hb hc, fun _ => rfl⟩
  · rw [if_neg hb]
    rw [greenMaskStd_exact] at hb
    refine ⟨⟨rfl, rfl, rfl⟩, fun hc => absurd hc hb, fun _ => rfl, fun hp => ?_⟩
    exact absurd (by omega) hb

/-- Concrete instance of remove_green_screen_standard_spec on a 1x1
image holding the background pixel (22, 187, 0): its alpha becomes 0. -/
theorem remove_green_screen_standard_spec_witness :
    ((remove_green_screen
      { w := 1, h := 1, pix := fun _ _ => { r := 22, g := 187, b := 0, a := 255 } }
      100 false).pix 0 0).a = 0 :=
  (remove_green_screen_standard_spec
    { w := 1, h := 1, pix := fun _ _ => { r := 22, g := 187, b := 0, a := 255 } }
    0 0).2.2.2 (by decide)

theorem remove_green_screen_pix_std (img : Img) (t : Nat) (y x : Nat) :
    (remove_green_screen img t false).pix y x =
      if greenMaskStd t (img.pix y x) then { img.pix y x with a := 0 }
      else img.pix y x := by
  unfold remove_green_screen
  simp only [Bool.false_eq_true, if_false]

theorem remove_green_screen_rgb_std (img : Img) (t : Nat) (y x : Nat) :
    ((remove_green_screen img t false).pix y x).r = (img.pix y x).r ∧
      ((remove_green_screen img t false).pix y x).g = (img.pix y x).g ∧
      ((remove_green_screen img t false).pix y x).b = (img.pix y x).b := by
  rw [remove_green_screen_pix_std]
  split
  · exact ⟨rfl, rfl, rfl⟩
  · exact ⟨rfl, rfl, rfl⟩

/-- C4: apply_texture_to_mask gives every pixel of its output the alpha of
the base image, and leaves every pixel whose fill-mask value is at most
128 entirely unchanged from the base, for any texture, mask and shading
source. -/
theorem apply_texture_preserves_alpha_and_unmasked (base texture : Img)
    (m : Mask) (orig : Img) (y x : Nat) :
    ((apply_texture_to_mask base texture m orig).pix y x).a = (base.pix y x).a ∧
    ((m.val y x).val ≤ 128 →
      (apply_texture_to_mask base texture m orig).pix y x = base.pix y x) := by
  unfold apply_texture_to_mask
  dsimp only
  constructor
  · split
    · rfl
    · rfl
  · intro hle
    rw [if_neg (by omega)]

/-- Concrete instance of apply_texture_preserves_alpha_and_unmasked on the
1x2 test frame: the unmasked pixel at x = 1 is returned unchanged. -/
theorem apply_texture_preserves_alpha_and_unmasked_witness :
    ((apply_texture_to_mask twoPixFrame twoPixFrame twoPixMask twoPixFrame).pix 0 1).a =
      (twoPixFrame.pix 0 1).a ∧
    (twoPixMask.val 0 1).val ≤ 128 ∧
    (apply_texture_to_mask twoPixFrame twoPixFrame twoPixMask twoPixFrame).pix 0 1 =
      twoPixFrame.pix 0 1 :=
  ⟨(apply_texture_preserves_alpha_and_unmasked twoPixFrame twoPixFrame twoPixMask
      twoPixFrame 0 1).1,
    by decide,
    (apply_texture_preserves_alpha_and_unmasked twoPixFrame twoPixFrame twoPixMask
      twoPixFrame 0 1).2 (by decide)⟩

/-- C6: mask dilation is monotone in the iteration count: for every input
mask and every k, the set of member pixels (value above 128) after k + 1
iterations contains the set of member pixels after k iterations. -/
theorem dilate_mask_monotone (m : Mask) (k : Nat) :
    {q : Nat × Nat | memberAt (dilate_mask m k) q.1 q.2} ⊆
      {q : Nat × Nat | memberAt (dilate_mask m (k + 1)) q.1 q.2} := by
  intro q hq
  have hstep : (dilate_mask m (k + 1)).val q.1 q.2 =
      if interiorPix (dilate_mask m k) q.1 q.2 && hasLitNeighbor (dilate_mask m k) q.1 q.2
      then 255 else (dilate_mask m k).val q.1 q.2 := rfl
  show 128 < ((dilate_mask m (k + 1)).val q.1 q.2).val
  rw [hstep]
  split
  · decide
  · exact hq

/-- Concrete instance of dilate_mask_monotone: the centre of the 3x3 test
mask is a member after 0 iterations, hence also after 1. -/
theorem dilate_mask_monotone_witness :
    (1, 1) ∈ {q : Nat × Nat | memberAt (dilate_mask centerMask3 1) q.1 q.2} :=
  dilate_mask_monotone centerMask3 0 (by decide)

/-- C9: overlay_black_lines is idempotent for a fixed line mask, forces
RGB to (0, 0, 0) at every pixel where the mask exceeds 128, and returns
every pixel's alpha exactly as received. -/
theorem overlay_black_lines_spec (img : Img) (lm : Mask) (y x : Nat) :
    (overlay_black_lines (overlay_black_lines img lm) lm).pix y x =
      (overlay_black_lines img lm).pix y x ∧
    (128 < (lm.val y x).val →
      ((overlay_black_lines img lm).pix y x).r = 0 ∧
      ((overlay_black_lines img lm).pix y x).g = 0 ∧
      ((overlay_black_lines img lm).pix y x).b = 0) ∧
    ((overlay_black_lines img lm).pix y x).a = (img.pix y x).a := by
  unfold overlay_black_lines
  dsimp only
  by_cases hm : 128 < (lm.val y x).val
  · simp [hm]
  · simp [hm]

/-- Concrete instance of overlay_black_lines_spec on the 1x2 test frame
with the full mask: the overlaid pixel is black and a second overlay
changes nothing. -/
theorem overlay_black_lines_spec_witness :
    ((overlay_black_lines twoPixFrame fullMask2).pix 0 0).r = 0 ∧
    (overlay_black_lines (overlay_black_lines twoPixFrame fullMask2) fullMask2).pix 0 0 =
      (overlay_black_lines twoPixFrame fullMask2).pix 0 0 :=
  ⟨((overlay_black_lines_spec twoPixFrame fullMask2 0 0).2.1 (by decide)).1,
    (overlay_black_lines_spec twoPixFrame fullMask2 0 0).1⟩

/-- C5: with no texture supplied, process_frame skips the texture
compositing and the aggressive chroma-key pass: the pre-resize output is
exactly the outline overlay applied to the standard background-removed
source, and every pixel the fill classifier marks keeps its source RGB
values. -/
theorem process_frame_no_texture_spec (frame : Img) (y x : Nat) :
    process_frame_pre_resize frame none =
      overlay_black_lines (remove_green_screen frame 100 false)
        (extract_black_lines frame) ∧
    (yellowCond (frame.pix y x) = true →
      (((process_frame_pre_resize frame none).pix y x).r = (frame.pix y x).r ∧
        ((process_frame_pre_resize frame none).pix y x).g = (frame.pix y x).g ∧
        ((process_frame_pre_resize frame none).pix y x).b = (frame.pix y x).b)) := by
  constructor
  · rfl
  · intro hy
    simp only [yellowCond, Bool.and_eq_true, decide_eq_true_eq] at hy
    have hnb : ¬ blackCond (frame.pix y x) = true := by
      simp only [blackCond, Bool.and_eq_true, decide_eq_true_eq]
      omega
    have hlm : (extract_black_lines frame).val y x = 0 := by
      show (if blackCond (frame.pix y x) then (255 : Fin 256) else 0) = 0
      rw [if_neg hnb]
    have hov : (process_frame_pre_resize frame none).pix y x =
        (remove_green_screen frame 100 false).pix y x := by
      show (overlay_black_lines (remove_green_screen frame 100 false)
          (extract_black_lines frame)).pix y x = _
      unfold overlay_black_lines
      dsimp only
      rw [hlm]
      rw [if_neg (by decide)]
    rw [hov]
    exact remove_green_screen_rgb_std frame 100 y x

/-- Concrete instance of process_frame_no_texture_spec: the fill-colored
pixel (200, 150, 40) of the 1x2 test frame keeps its red channel through
the no-texture pipeline. -/
theorem process_frame_no_texture_spec_witness :
    yellowCond (twoPixFrame.pix 0 0) = true ∧
    ((process_frame_pre_resize twoPixFrame none).pix 0 0).r = (twoPixFrame.pix 0 0).r :=
  ⟨by decide, ((process_frame_no_texture_spec twoPixFrame 0 0).2 (by decide)).1⟩

/-- C1 fails on the code: whenever the fill mask is non-empty,
extract_shading_map returns the 0 of np.zeros_like at every unmasked
pixel, not the 1.0 the spec states (and that the comment in
convert_shading_to_uint8 expects).  On a 1x2 frame whose x = 0 pixel is
masked, the unmasked pixel at x = 1 receives shading 0 while the masked
pixel receives 1. -/
theorem extract_shading_unmasked_is_zero :
    maskedIdx twoPixMask ≠ [] ∧
    extract_shading_map twoPixFrame twoPixMask 0 1 = 0 ∧
    extract_shading_map twoPixFrame twoPixMask 0 0 = 1 := by
  refine ⟨by decide, by decide, ?_⟩
  have hidx : maskedIdx twoPixMask = [(0, 0)] := by decide
  have hl : maskedLums twoPixFrame twoPixMask = [luminance (twoPixFrame.pix 0 0)] := by
    unfold maskedLums
    rw [hidx]
    rfl
  have hnlt : ¬ listMin [luminance (twoPixFrame.pix 0 0)] <
      listMax [luminance (twoPixFrame.pix 0 0)] := by
    show ¬ luminance (twoPixFrame.pix 0 0) < luminance (twoPixFrame.pix 0 0)
    exact lt_irrefl _
  unfold extract_shading_map
  rw [if_neg (by decide), if_pos (by decide), hl]
  rw [if_neg hnlt]

theorem le_foldl_max (q : ℚ) (l : List ℚ) : q ≤ l.foldl max q := by
  induction l generalizing q with
  | nil => exact le_refl q
  | cons x xs ih =>
    simp only [List.foldl_cons]
    exact le_trans (le_max_left q x) (ih (max q x))

theorem mem_le_foldl_max (r : ℚ) (l : List ℚ) :
    ∀ q : ℚ, r ∈ l → r ≤ l.foldl max q := by
  induction l with
  | nil =>
    intro q h
    cases h
  | cons x xs ih =>
    intro q h
    simp only [List.foldl_cons]
    rcases List.mem_cons.mp h with h1 | h2
    · subst h1
      exact le_trans (le_max_right q r) (le_foldl_max (max q r) xs)
    · exact ih (max q x) h2

theorem foldl_max_mem (l : List ℚ) :
    ∀ q : ℚ, l.foldl max q = q ∨ l.foldl max q ∈ l := by
  induction l with
  | nil =>
    intro q
    exact Or.inl rfl
  | cons x xs ih =>
    intro q
    simp only [List.foldl_cons]
    rcases ih (max q x) with h | h
    · rw [h]
      rcases max_choice q x with hm | hm
      · exact Or.inl hm
      · exact Or.inr (by rw [hm]; exact List.mem_cons_self x xs)
    · exact Or.inr (List.mem_cons_of_mem x h)

theorem listMax_le_and_mem (l : List ℚ) (h : l ≠ []) :
    (∀ r ∈ l, r ≤ listMax l) ∧ listMax l ∈ l := by
  cases l with
  | nil => exact absurd rfl h
  | cons x xs =>
    constructor
    · intro r hr
      show r ≤ xs.foldl max x
      rcases List.mem_cons.mp hr with h1 | h2
      · subst h1
        exact le_foldl_max r xs
      · exact mem_le_foldl_max r xs x h2
    · show xs.foldl max x ∈ x :: xs
      rcases foldl_max_mem xs x with h1 | h1
      · rw [h1]
        exact List.mem_cons_self x xs
      · exact List.mem_cons_of_mem x h1

theorem foldl_min_le (q : ℚ) (l : List ℚ) : l.foldl min q ≤ q := by
  induction l generalizing q with
  | nil => exact le_refl q
  | cons x xs ih =>
    simp only [List.foldl_cons]
    exact le_trans (ih (min q x)) (min_le_left q x)

theorem foldl_min_le_mem (r : ℚ) (l : List ℚ) :
    ∀ q : ℚ, r ∈ l → l.foldl min q ≤ r := by
  induction l with
  | nil =>
    intro q h
    cases h
  | cons x xs ih =>
    intro q h
    simp only [List.foldl_cons]
    rcases List.mem_cons.mp h with h1 | h2
    · subst h1
      exact le_trans (foldl_min_le (min q r) xs) (min_le_right q r)
    · exact ih (min q x) h2

theorem foldl_min_mem (l : List ℚ) :
    ∀ q : ℚ, l.foldl min q = q ∨ l.foldl min q ∈ l := by
  induction l with
  | nil =>
    intro q
    exact Or.inl rfl
  | cons x xs ih =>
    intro q
    simp only [List.foldl_cons]
    rcases ih (min q x) with h | h
    · rw [h]
      rcases min_choice q x with hm | hm
      · exact Or.inl hm
      · exact Or.inr (by rw [hm]; exact List.mem_cons_self x xs)
    · exact Or.inr (List.mem_cons_of_mem x h)

theorem listMin_le_and_mem (l : List ℚ) (h : l ≠ []) :
    (∀ r ∈ l, listMin l ≤ r) ∧ listMin l ∈ l := by
  cases l with
  | nil => exact absurd rfl h
  | cons x xs =>
    constructor
    · intro r hr
      show xs.foldl min x ≤ r
      rcases List.mem_cons.mp hr with h1 | h2
      · subst h1
        exact foldl_min_le r xs
      · exact foldl_min_le_mem r xs x h2
    · show xs.foldl min x ∈ x :: xs
      rcases foldl_min_mem xs x with h1 | h1
      · rw [h1]
        exact List.mem_cons_self x xs
      · exact List.mem_cons_of_mem x h1

theorem mem_allIdx (h w y x : Nat) : (y, x) ∈ allIdx h w ↔ y < h ∧ x < w := by
  unfold allIdx
  simp only [List.mem_flatMap, List.mem_map, List.mem_range, Prod.mk.injEq]
  constructor
  · rintro ⟨a, ha, b, hb, rfl, rfl⟩
    exact ⟨ha, hb⟩
  · rintro ⟨hy, hx⟩
    exact ⟨y, hy, x, hx, rfl, rfl⟩

theorem mem_maskedIdx (m : Mask) (y x : Nat) :
    (y, x) ∈ maskedIdx m ↔ y < m.h ∧ x < m.w ∧ 128 < (m.val y x).val := by
  unfold maskedIdx
  rw [List.mem_filter, mem_allIdx]
  simp only [decide_eq_true_eq]
  rw [and_assoc]

/-- C7: on a non-empty fill mask, extract_shading_map normalizes the
luminance 0.299 r + 0.587 g + 0.114 b of every masked pixel by the
minimum and maximum luminance over the masked region and clips the
quotient into [0.4, 1.0]; when the two extremes coincide (for example on
a single-color fill region) every masked pixel gets exactly 1. -/
theorem extract_shading_masked_formula (base : Img) (m : Mask)
    (hne : maskedIdx m ≠ []) :
    ∃ mn mx : ℚ,
      (mn ∈ maskedLums base m ∧ ∀ r ∈ maskedLums base m, mn ≤ r) ∧
      (mx ∈ maskedLums base m ∧ ∀ r ∈ maskedLums base m, r ≤ mx) ∧
      (∀ y x : Nat, (y, x) ∈ maskedIdx m ↔
        (y < m.h ∧ x < m.w ∧ 128 < (m.val y x).val)) ∧
      (∀ y x : Nat, (y, x) ∈ maskedIdx m →
        extract_shading_map base m y x =
          if mn < mx then
            min (max ((((299 : ℚ) / 1000) * (((base.pix y x).r.val : ℚ)) +
              ((587 : ℚ) / 1000) * (((base.pix y x).g.val : ℚ)) +
              ((114 : ℚ) / 1000) * (((base.pix y x).b.val : ℚ)) - mn) / (mx - mn))
              ((2 : ℚ) / 5)) 1
          else 1) := by
  have hlne : maskedLums base m ≠ [] := by
    unfold maskedLums
    intro hc
    exact hne (List.map_eq_nil_iff.mp hc)
  obtain ⟨hminle, hminmem⟩ := listMin_le_and_mem (maskedLums base m) hlne
  obtain ⟨hmaxle, hmaxmem⟩ := listMax_le_and_mem (maskedLums base m) hlne
  refine ⟨listMin (maskedLums base m), listMax (maskedLums base m),
    ⟨hminmem, hminle⟩, ⟨hmaxmem, hmaxle⟩, fun y x => mem_maskedIdx m y x, ?_⟩
  intro y x hyx
  have hm : 128 < (m.val y x).val := ((mem_maskedIdx m y x).mp hyx).2.2
  unfold extract_shading_map
  rw [if_neg hne, if_pos hm]
  rfl

/-- Concrete instance of extract_shading_masked_formula on a 1x2 frame
holding one white and one black pixel, both masked. -/
theorem extract_shading_masked_formula_witness :
    maskedIdx fullMask2 ≠ [] ∧
    (∃ mn mx : ℚ,
      (mn ∈ maskedLums shadePairFrame fullMask2 ∧
        ∀ r ∈ maskedLums shadePairFrame fullMask2, mn ≤ r) ∧
      (mx ∈ maskedLums shadePairFrame fullMask2 ∧
        ∀ r ∈ maskedLums shadePairFrame fullMask2, r ≤ mx) ∧
      (∀ y x : Nat, (y, x) ∈ maskedIdx fullMask2 ↔
        (y < fullMask2.h ∧ x < fullMask2.w ∧ 128 < (fullMask2.val y x).val)) ∧
      (∀ y x : Nat, (y, x) ∈ maskedIdx fullMask2 →
        extract_shading_map shadePairFrame fullMask2 y x =
          if mn < mx then
            min (max ((((299 : ℚ) / 1000) * (((shadePairFrame.pix y x).r.val : ℚ)) +
              ((587 : ℚ) / 1000) * (((shadePairFrame.pix y x).g.val : ℚ)) +
              ((114 : ℚ) / 1000) * (((shadePairFrame.pix y x).b.val : ℚ)) - mn) / (mx - mn))
              ((2 : ℚ) / 5)) 1
          else 1)) :=
  ⟨by decide, extract_shading_masked_formula shadePairFrame fullMask2 (by decide)⟩

theorem convert_shading_val (v : ℚ) (h0 : 2 / 5 ≤ v) (h1 : v ≤ 1) :
    ((convert_shading_to_uint8 v).val : ℤ) = max 102 ⌊(v - 2 / 5) * 425⌋ := by
  have harg : (v - 2 / 5) / (3 / 5) * 255 = (v - 2 / 5) * 425 := by ring
  have hnn : (0 : ℚ) ≤ (v - 2 / 5) * 425 := by nlinarith
  have hub : (v - 2 / 5) * 425 ≤ 255 := by nlinarith
  have hfl0 : 0 ≤ ⌊(v - 2 / 5) * 425⌋ := Int.floor_nonneg.mpr hnn
  have hfl255 : ⌊(v - 2 / 5) * 425⌋ ≤ 255 := by
    rw [Int.floor_le_iff]
    push_cast
    linarith
  have htn : (⌊(v - 2 / 5) * 425⌋.toNat : ℤ) = ⌊(v - 2 / 5) * 425⌋ :=
    Int.toNat_of_nonneg hfl0
  unfold convert_shading_to_uint8 toUint8
  rw [harg]
  dsimp only
  split
  · rename_i hlt
    rw [show ((102 : Fin 256).val : ℤ) = 102 from by decide]
    rw [max_eq_left (by omega)]
  · rename_i hge
    rw [max_eq_right (by omega)]
    show ((⌊(v - 2 / 5) * 425⌋.toNat % 256 : ℕ) : ℤ) = ⌊(v - 2 / 5) * 425⌋
    omega

/-- C2 as stated fails on the code: convert_shading_to_uint8 is not the
linear interpolation sending 0.4 to 102 and 1.0 to 255.  At the shading
value 0.7 the stored byte is 127, while that interpolation gives 178.5,
so no rounding of it can produce 127. -/
theorem convert_shading_not_lerp :
    (2 / 5 : ℚ) ≤ 7 / 10 ∧ (7 / 10 : ℚ) ≤ 1 ∧
    (convert_shading_to_uint8 (7 / 10)).val = 127 ∧
    (102 : ℚ) + ((7 / 10 : ℚ) - 2 / 5) / (1 - 2 / 5) * (255 - 102) = 357 / 2 ∧
    ¬((127 : ℚ) = 357 / 2) ∧ (127 : ℚ) < 357 / 2 - 1 := by
  refine ⟨by norm_num, by norm_num, ?_, by norm_num, by norm_num, by norm_num⟩
  have h := convert_shading_val (7 / 10) (by norm_num) (by norm_num)
  rw [show ((7 : ℚ) / 10 - 2 / 5) * 425 = 255 / 2 from by norm_num] at h
  have hfl : ⌊(255 / 2 : ℚ)⌋ = 127 := by
    rw [Int.floor_eq_iff]
    constructor
    · norm_num
    · norm_num
  rw [hfl, max_eq_right (by norm_num)] at h
  omega

/-- C2 amended: convert_shading_to_uint8 maps a shading value v in
[0.4, 1.0] to the byte max 102 (floor of (v - 0.4) * 425), that is, the
linear map of [0.4, 1.0] onto [0, 255] truncated to an integer and then
clamped below at 102; in particular 0.4 maps to 102 and 1.0 to 255
(bytes in [0.4, 0.64] all collapse to 102, so the map is not the linear
interpolation of the byte range [102, 255]). -/
theorem convert_shading_amended (v : ℚ) (h0 : 2 / 5 ≤ v) (h1 : v ≤ 1) :
    ((convert_shading_to_uint8 v).val : ℤ) = max 102 ⌊(v - 2 / 5) * 425⌋ ∧
    (convert_shading_to_uint8 (2 / 5)).val = 102 ∧
    (convert_shading_to_uint8 1).val = 255 := by
  refine ⟨convert_shading_val v h0 h1, ?_, ?_⟩
  · have h := convert_shading_val (2 / 5) (le_refl _) (by norm_num)
    rw [show ((2 : ℚ) / 5 - 2 / 5) * 425 = 0 from by norm_num, Int.floor_zero,
      max_eq_left (by norm_num)] at h
    omega
  · have h := convert_shading_val 1 (by norm_num) (le_refl _)
    rw [show ((1 : ℚ) - 2 / 5) * 425 = 255 from by norm_num,
      show ((255 : ℚ)) = ((255 : ℤ) : ℚ) from by norm_num, Int.floor_intCast,
      max_eq_right (by norm_num)] at h
    omega

/-- Concrete instance of convert_shading_amended at the shading value
0.5: the stored byte is max 102 (floor of 42.5) = 102, and the endpoints
0.4 and 1.0 map to 102 and 255. -/
theorem convert_shading_amended_witness :
    ((2 / 5 : ℚ) ≤ 1 / 2 ∧ (1 / 2 : ℚ) ≤ 1) ∧
    (((convert_shading_to_uint8 (1 / 2)).val : ℤ) = max 102 ⌊((1 / 2 : ℚ) - 2 / 5) * 425⌋ ∧
      (convert_shading_to_uint8 (2 / 5)).val = 102 ∧
      (convert_shading_to_uint8 1).val = 255) :=
  ⟨⟨by norm_num, by norm_num⟩, convert_shading_amended (1 / 2) (by norm_num) (by norm_num)⟩

end Amogus
